import Mathlib

/-!
Shallow embedding of the plugin subsystem `tutor/plugins.py`.

The module defines a class hierarchy `BasePlugin` with three concrete
discovery strategies (`OfficialPlugin`, `EntrypointPlugin`, `DictPlugin`),
a registry facade `Plugins` (dedup + caching + aggregation of patches and
hooks), and module-level operations `enable` / `disable` / `is_enabled` /
`is_installed` over a mutable configuration mapping.

Modelling conventions:
* Python dicts are association lists `List (String × α)` with unique keys;
  `dictGet?` / `dictSet` / `dictPop` mirror `d.get`, `d[k] = v` and
  `d.pop(k, None)` (a dict keeps the position of an overwritten key and
  appends new keys at the end, which the model reproduces).
* The external sources scanned by discovery (`pkg_resources` entrypoints,
  the `*.yml` files under `DictPlugin.ROOT`) are an explicit `Env` value:
  the records the two scans would produce, in scan order.
  `OfficialPlugin.iter_load` yields nothing in the source (line 157).
* Class-level mutable state is the explicit `RegistryState`.  In the
  source, `INSTALLED` is declared once on `BasePlugin` (line 51) and the
  subclasses only ever mutate it (`append` / `clear`), never rebind it, so
  by Python attribute lookup `cls.INSTALLED` denotes the *same* list
  object for all four classes: the model therefore has a single
  `installed` field.  `_IS_LOADED` on the other hand is *assigned*
  (`cls._IS_LOADED = True`, line 98), which creates a per-subclass
  attribute, so each strategy gets its own boolean flag.
* Generators are modelled as fully consumed: each `iter_*` returns the
  list of all yielded elements together with the updated registry state.
* `enable` and `disable` return the configuration mapping as it stands
  when the call ends (Python mutates it in place) plus the exception
  raised, if any; the lazy-discovery mutation of the registry cache that
  these calls may trigger is irrelevant to their configuration-level
  contracts and is not part of their result.
-/

/-- Values of a plugin's `hooks` dict: `Union[Dict[str, str], List[str]]`. -/
inductive HookServices where
  | ofList : List String → HookServices
  | ofDict : List (String × String) → HookServices
deriving DecidableEq

/-- Python string comparison `a <= b` on the underlying character lists:
lexicographic by code point (`Char.toNat` is the code point). -/
def listLeb : List Char → List Char → Bool
  | [], _ => true
  | _ :: _, [] => false
  | a :: as, b :: bs =>
    if a.toNat < b.toNat then true
    else if b.toNat < a.toNat then false
    else listLeb as bs

/-- Python `a <= b` on strings. -/
def pyLeb (a b : String) : Bool := listLeb a.data b.data

/-- The order Python sorts strings by, as a proposition. -/
def pyLe (a b : String) : Prop := pyLeb a b = true

instance : DecidableRel pyLe := fun a b => instDecidableEqBool (pyLeb a b) true

/-- One step of insertion sort with respect to `pyLeb`. -/
def insertSorted (s : String) : List String → List String
  | [] => [s]
  | t :: ts => if pyLeb s t then s :: t :: ts else t :: insertSorted s ts

/-- Python `list.sort()` / `sorted` on a list of strings: the `pyLe`-sorted
permutation (unique, since `pyLe` is a total order up to equal strings and
equal strings are interchangeable). -/
def sortStrings : List String → List String
  | [] => []
  | s :: ss => insertSorted s (sortStrings ss)

/-- Python `d.get(k)` on a dict modelled as an association list
(first binding wins; Python dict keys are unique). -/
def dictGet? (k : String) : List (String × α) → Option α
  | [] => none
  | (k2, v) :: rest => if k2 = k then some v else dictGet? k rest

/-- Python `d[k] = v`: overwrite in place when the key exists (keeping its
position), append `(k, v)` at the end otherwise. -/
def dictSet (k : String) (v : α) : List (String × α) → List (String × α)
  | [] => [(k, v)]
  | (k2, v2) :: rest => if k2 = k then (k, v) :: rest else (k2, v2) :: dictSet k v rest

/-- Python `d.pop(k, None)`: drop the binding of `k` when present, do
nothing otherwise.  On a unique-key dict this is exactly a filter. -/
def dictPop (k : String) (d : List (String × α)) : List (String × α) :=
  d.filter (fun kv => decide (kv.1 ≠ k))

/-- The uniform plugin record built by `BasePlugin.__init__` (lines 54-69):
a name plus the `config` / `patches` / `hooks` attribute groups read off
the source object (callables already resolved, defaults already applied).
`templates_root` and `command` are carried by the source object too but no
registry/aggregation behaviour depends on them.  Config values are the
strings they are rendered from. -/
structure Plugin where
  name : String
  config : List (String × List (String × String))
  patches : List (String × String)
  hooks : List (String × HookServices)
deriving DecidableEq

/-- Model of `BasePlugin.config_key` (line 71): prefix a key by the upper-cased
plugin name. -/
def Plugin.config_key (p : Plugin) (key : String) : String :=
  p.name.toUpper ++ "_" ++ key

/-- Model of `BasePlugin.config_add` (line 77): `self.config.get("add", {})`. -/
def Plugin.config_add (p : Plugin) : List (String × String) :=
  (dictGet? "add" p.config).getD []

/-- Model of `BasePlugin.config_set` (line 81): `self.config.get("set", {})`. -/
def Plugin.config_set (p : Plugin) : List (String × String) :=
  (dictGet? "set" p.config).getD []

/-- Model of `BasePlugin.config_defaults` (line 85): `self.config.get("defaults", {})`. -/
def Plugin.config_defaults (p : Plugin) : List (String × String) :=
  (dictGet? "defaults" p.config).getD []

/-- The class-level mutable state of the hierarchy: the single shared
`BasePlugin.INSTALLED` list (line 51, see the header note) and the
per-subclass `_IS_LOADED` flags (line 52 / line 98). -/
structure RegistryState where
  installed : List Plugin
  officialLoaded : Bool
  entrypointLoaded : Bool
  dictLoaded : Bool
deriving DecidableEq

/-- The state at interpreter start: empty list, all flags `False`. -/
def RegistryState.start : RegistryState := ⟨[], false, false, false⟩

/-- The external sources discovery scans: the records
`EntrypointPlugin.iter_load` (line 126-129) and `DictPlugin.iter_load`
(line 178-192) would yield, in scan order. -/
structure Env where
  entrypointSource : List Plugin
  dictSource : List Plugin
deriving DecidableEq

/-- Model of `OfficialPlugin.iter_load` (line 155-157): `yield from []`. -/
def OfficialPlugin.iter_load (_ : Env) : List Plugin := []

/-- Model of `EntrypointPlugin.iter_load` (line 126-129): one record per
`tutor.plugin.v0` entrypoint. -/
def EntrypointPlugin.iter_load (env : Env) : List Plugin := env.entrypointSource

/-- Model of `DictPlugin.iter_load` (line 178-192): one record per `*.yml` file
under `DictPlugin.ROOT` that parses to a dict with the required keys. -/
def DictPlugin.iter_load (env : Env) : List Plugin := env.dictSource

/-- Model of `cls.INSTALLED` as read through `BasePlugin`: the shared list. -/
def BasePlugin.INSTALLED (st : RegistryState) : List Plugin := st.installed

/-- Model of `OfficialPlugin.INSTALLED`: the subclass never rebinds the attribute,
so lookup resolves to `BasePlugin.INSTALLED` — the shared list. -/
def OfficialPlugin.INSTALLED (st : RegistryState) : List Plugin := st.installed

/-- Model of `EntrypointPlugin.INSTALLED`: same shared list (no rebinding). -/
def EntrypointPlugin.INSTALLED (st : RegistryState) : List Plugin := st.installed

/-- Model of `DictPlugin.INSTALLED`: same shared list (no rebinding). -/
def DictPlugin.INSTALLED (st : RegistryState) : List Plugin := st.installed

/-- Model of `BasePlugin.iter_installed` (lines 93-99) specialised to
`OfficialPlugin`: when `_IS_LOADED` is unset, append `iter_load`'s records
to `INSTALLED` and set the flag; then yield the whole `INSTALLED` list. -/
def OfficialPlugin.iter_installed (env : Env) (st : RegistryState) :
    RegistryState × List Plugin :=
  if st.officialLoaded then (st, st.installed)
  else
    let st2 : RegistryState :=
      { st with installed := st.installed ++ OfficialPlugin.iter_load env,
                officialLoaded := true }
    (st2, st2.installed)

/-- Model of `BasePlugin.iter_installed` (lines 93-99) specialised to
`EntrypointPlugin`. -/
def EntrypointPlugin.iter_installed (env : Env) (st : RegistryState) :
    RegistryState × List Plugin :=
  if st.entrypointLoaded then (st, st.installed)
  else
    let st2 : RegistryState :=
      { st with installed := st.installed ++ EntrypointPlugin.iter_load env,
                entrypointLoaded := true }
    (st2, st2.installed)

/-- Model of `BasePlugin.iter_installed` (lines 93-99) specialised to
`DictPlugin`. -/
def DictPlugin.iter_installed (env : Env) (st : RegistryState) :
    RegistryState × List Plugin :=
  if st.dictLoaded then (st, st.installed)
  else
    let st2 : RegistryState :=
      { st with installed := st.installed ++ DictPlugin.iter_load env,
                dictLoaded := true }
    (st2, st2.installed)

/-- Model of `OfficialPlugin.load` (lines 138-142): construct the record and append
it to `cls.INSTALLED` (the shared list). -/
def OfficialPlugin.load (p : Plugin) (st : RegistryState) : RegistryState :=
  { st with installed := st.installed ++ [p] }

/-- Model of `Plugins.clear` (lines 219-222): `PluginClass.INSTALLED.clear()` for
each of the three classes in `PLUGIN_CLASSES` — three clears of the one
shared list.  The `_IS_LOADED` flags are not touched. -/
def Plugins.clear (st : RegistryState) : RegistryState :=
  { st with installed := [] }

/-- The dedup loop of `Plugins.iter_installed` (lines 230-235): keep a
record when its name is not yet in the `installed_plugin_names` set. -/
def dedupByName : List Plugin → List String → List Plugin
  | [], _ => []
  | p :: ps, seen =>
    if p.name ∈ seen then dedupByName ps seen
    else p :: dedupByName ps (p.name :: seen)

/-- The `installed_plugin_names` set after scanning a list of records
(matching the evolution of `seen` inside `dedupByName`). -/
def namesAfter : List Plugin → List String → List String
  | [], seen => seen
  | p :: ps, seen =>
    if p.name ∈ seen then namesAfter ps seen
    else namesAfter ps (p.name :: seen)

/-- Model of `Plugins.iter_installed` (lines 224-235): iterate the three strategy
classes in `PLUGIN_CLASSES` order (`OfficialPlugin`, `EntrypointPlugin`,
`DictPlugin`, lines 196-200), chaining their stateful `iter_installed`
generators, and deduplicate the yielded records by name. -/
def Plugins.iter_installed (env : Env) (st : RegistryState) :
    RegistryState × List Plugin :=
  let r1 := OfficialPlugin.iter_installed env st
  let r2 := EntrypointPlugin.iter_installed env r1.1
  let r3 := DictPlugin.iter_installed env r2.1
  (r3.1, dedupByName (r1.2 ++ (r2.2 ++ r3.2)) [])

/-- The external configuration mapping.  `CONFIG_KEY = "PLUGINS"` is the
one key this module reads structurally: the model keeps it as an optional
list (`none` = key absent) next to the other (variable) keys. -/
structure Config where
  plugins : Option (List String)
  vars : List (String × String)
deriving DecidableEq

/-- Model of `is_enabled` (lines 303-304): `name in config.get(CONFIG_KEY, [])`. -/
def is_enabled (cfg : Config) (name : String) : Bool :=
  decide (name ∈ cfg.plugins.getD [])

/-- Model of `Plugins.iter_enabled` (lines 237-240): the installed records whose
name is enabled in the configuration. -/
def iterEnabled (env : Env) (st : RegistryState) (cfg : Config) : List Plugin :=
  (Plugins.iter_installed env st).2.filter (fun p => is_enabled cfg p.name)

/-- Model of `is_installed` (lines 263-267): some installed record has the name. -/
def is_installed (env : Env) (st : RegistryState) (name : String) : Bool :=
  decide (name ∈ (Plugins.iter_installed env st).2.map Plugin.name)

/-- The two-level dict update of `Plugins.__init__` (lines 208-217):
`outer.setdefault(k1, {})` followed by `outer[k1][k2] = v`. -/
def nestedAdd (outer : List (String × List (String × α))) (k1 k2 : String) (v : α) :
    List (String × List (String × α)) :=
  dictSet k1 (dictSet k2 v ((dictGet? k1 outer).getD [])) outer

/-- One plugin's contribution pass inside `Plugins.__init__`: for each
`(key, value)` item of the plugin's group, `outer[key][nm] = value`. -/
def addContrib (items : List (String × α)) (nm : String)
    (outer : List (String × List (String × α))) :
    List (String × List (String × α)) :=
  items.foldl (fun d kv => nestedAdd d kv.1 nm kv.2) outer

/-- The full build loop of `Plugins.__init__` over the enabled plugins in
registry-iteration order, generic in the contributed group. -/
def buildNested (getItems : Plugin → List (String × α)) (ps : List Plugin) :
    List (String × List (String × α)) :=
  ps.foldl (fun d p => addContrib (getItems p) p.name d) []

/-- A `Plugins` instance (lines 202-217): the deep-copied configuration
snapshot plus the eagerly built `patches` and `hooks` two-level dicts
(Lean values are immutable so the `deepcopy` is the snapshot itself).
`template_roots` is initialised empty and never filled in this module. -/
structure PluginsState where
  config : Config
  patches : List (String × List (String × String))
  hooks : List (String × List (String × HookServices))
deriving DecidableEq

/-- Model of `Plugins.__init__` (lines 202-217): aggregate every enabled plugin's
`patches` and `hooks` items, in registry-iteration order. -/
def Plugins.build (env : Env) (st : RegistryState) (cfg : Config) : PluginsState :=
  { config := cfg,
    patches := buildNested Plugin.patches (iterEnabled env st cfg),
    hooks := buildNested Plugin.hooks (iterEnabled env st cfg) }

/-- Model of `Plugins.iter_patches` (lines 242-246): take the slot's inner dict,
sort its keys (`sorted(plugin_patches.keys())`), and yield each key with
its entry.  The `getD ""` branch is unreachable: the keys come from the
dict itself. -/
def PluginsState.iter_patches (ps : PluginsState) (slot : String) :
    List (String × String) :=
  let pluginPatches := (dictGet? slot ps.patches).getD []
  let names := sortStrings (pluginPatches.map Prod.fst)
  names.map (fun n => (n, (dictGet? n pluginPatches).getD ""))

/-- Model of `Plugins.iter_hooks` (lines 248-251):
`self.hooks.get(hook_name, {}).items()` — insertion order, no sort. -/
def PluginsState.iter_hooks (ps : PluginsState) (phase : String) :
    List (String × HookServices) :=
  (dictGet? phase ps.hooks).getD []

/-- The exceptions these operations raise. -/
inductive PluginError where
  | notInstalled : String → PluginError
  | keyError : String → PluginError
deriving DecidableEq

/-- Model of `enable` (lines 274-282): fail when the name is not installed, return
unchanged when already enabled, otherwise append the name to the
`PLUGINS` entry (created as `[]` when absent) and sort the whole list
(`config[CONFIG_KEY].sort()`). -/
def enable (env : Env) (st : RegistryState) (cfg : Config) (name : String) :
    Config × Option PluginError :=
  if is_installed env st name = false then
    (cfg, some (PluginError.notInstalled name))
  else if is_enabled cfg name then (cfg, none)
  else
    let l := cfg.plugins.getD []
    ({ cfg with plugins := some (sortStrings (l ++ [name])) }, none)

/-- Model of `disable` (lines 285-296): over `Plugins(config).iter_enabled()`, pop
every `config_set` key of each record matching `name`; then
`config[CONFIG_KEY]` — a `KeyError` when the entry is absent — and remove
every occurrence of `name` from it.  The returned configuration is the
mapping as the call leaves it (the pops precede the indexing, so they
survive into the error case). -/
def disable (env : Env) (st : RegistryState) (cfg : Config) (name : String) :
    Config × Option PluginError :=
  let vars2 :=
    (iterEnabled env st cfg).foldl
      (fun vs p =>
        if p.name = name then p.config_set.foldl (fun v2 kv => dictPop kv.1 v2) vs
        else vs)
      cfg.vars
  match cfg.plugins with
  | none => ({ cfg with vars := vars2 }, some (PluginError.keyError "PLUGINS"))
  | some l =>
    ({ plugins := some (l.filter (fun s => decide (s ≠ name))), vars := vars2 }, none)

/-! ### Concrete fixtures used by the example theorems -/

/-- A record named `a` patching slot `body` and hooking phase `init`. -/
def exA : Plugin := ⟨"a", [], [("body", "content-a")], [("init", .ofList ["sa"])]⟩

/-- A record named `b` patching slot `body` and hooking phase `init`. -/
def exB : Plugin := ⟨"b", [], [("body", "content-b")], [("init", .ofList ["sb"])]⟩

/-- The declarative `forum` plugin of the spec scenario:
`config: {set: {FORUM_SECRET: "abc"}}`. -/
def exForum : Plugin := ⟨"forum", [("set", [("FORUM_SECRET", "abc")])], [], []⟩

/-- A record named `x` as an entrypoint would produce it. -/
def exX1 : Plugin := ⟨"x", [("set", [("A", "1")])], [], []⟩

/-- A different record also named `x`, as a declarative file would produce it. -/
def exX2 : Plugin := ⟨"x", [("set", [("A", "2")])], [], []⟩

/-- An environment whose entrypoint scan yields `b` before `a`. -/
def envBA : Env := ⟨[exB, exA], []⟩

/-- An environment whose declarative scan yields exactly `forum`. -/
def envForum : Env := ⟨[], [exForum]⟩

/-- An environment where two strategies both produce a record named `x`. -/
def envClash : Env := ⟨[exX1], [exX2]⟩

/-- An environment whose entrypoint scan yields one record named `p`. -/
def envP : Env := ⟨[⟨"p", [], [], []⟩], []⟩

/-! ### Association-list (Python dict) lemmas -/

theorem dictGet?_eq_none {α : Type} (k : String) (d : List (String × α)) :
    dictGet? k d = none ↔ k ∉ d.map Prod.fst := by
  induction d with
  | nil => simp [dictGet?]
  | cons kv rest ih =>
    simp only [dictGet?, List.map_cons, List.mem_cons]
    by_cases h : kv.1 = k
    · simp [h]
    · simp [h, ih, Ne.symm h]

theorem dictGet?_mem {α : Type} {k : String} {v : α} {d : List (String × α)}
    (h : dictGet? k d = some v) : (k, v) ∈ d := by
  induction d with
  | nil => simp [dictGet?] at h
  | cons kv rest ih =>
    obtain ⟨k1, v1⟩ := kv
    simp only [dictGet?] at h
    by_cases hk : k1 = k
    · simp [hk] at h
      subst hk
      subst h
      exact List.mem_cons_self _ _
    · simp [hk] at h
      exact List.mem_cons_of_mem _ (ih h)

theorem dictGet?_dictSet_self {α : Type} (k : String) (v : α) (d : List (String × α)) :
    dictGet? k (dictSet k v d) = some v := by
  induction d with
  | nil => simp [dictSet, dictGet?]
  | cons kv rest ih =>
    by_cases h : kv.1 = k
    · simp [dictSet, h, dictGet?]
    · simp [dictSet, h, dictGet?, ih]

theorem dictGet?_dictSet_ne {α : Type} {k2 k : String} (v : α) (d : List (String × α))
    (h : k2 ≠ k) : dictGet? k2 (dictSet k v d) = dictGet? k2 d := by
  induction d with
  | nil => simp [dictSet, dictGet?, Ne.symm h]
  | cons kv rest ih =>
    by_cases hk : kv.1 = k
    · simp [dictSet, hk, dictGet?, Ne.symm h]
    · simp [dictSet, hk, dictGet?, ih]

theorem dictSet_of_not_mem {α : Type} {k : String} (v : α) {d : List (String × α)}
    (h : k ∉ d.map Prod.fst) : dictSet k v d = d ++ [(k, v)] := by
  induction d with
  | nil => simp [dictSet]
  | cons kv rest ih =>
    simp only [List.map_cons, List.mem_cons] at h
    push_neg at h
    simp [dictSet, Ne.symm h.1, ih h.2]

theorem map_fst_dictSet {α : Type} (k : String) (v : α) (d : List (String × α)) :
    (dictSet k v d).map Prod.fst =
      if k ∈ d.map Prod.fst then d.map Prod.fst else d.map Prod.fst ++ [k] := by
  induction d with
  | nil => simp [dictSet]
  | cons kv rest ih =>
    by_cases h : kv.1 = k
    · simp [dictSet, h]
    · simp only [dictSet, h, if_false, List.map_cons, ih, List.mem_cons]
      by_cases hm : k ∈ rest.map Prod.fst
      · simp [hm, Ne.symm h]
      · simp [hm, Ne.symm h]

theorem nodup_keys_dictSet {α : Type} (k : String) (v : α) {d : List (String × α)}
    (h : (d.map Prod.fst).Nodup) : ((dictSet k v d).map Prod.fst).Nodup := by
  rw [map_fst_dictSet]
  by_cases hm : k ∈ d.map Prod.fst
  · simp [hm, h]
  · simp [hm, List.nodup_append, h, hm]

theorem mem_dictSet {α : Type} {e : String × α} {k : String} {v : α}
    {d : List (String × α)} (h : e ∈ dictSet k v d) : e = (k, v) ∨ e ∈ d := by
  induction d with
  | nil => simp [dictSet] at h; simp [h]
  | cons kv rest ih =>
    by_cases hk : kv.1 = k
    · simp [dictSet, hk] at h
      rcases h with h | h
      · simp [h]
      · simp [h]
    · simp [dictSet, hk] at h
      rcases h with h | h
      · simp [h]
      · rcases ih h with h2 | h2
        · simp [h2]
        · simp [h2]

theorem dictGet?_dictPop_self {α : Type} (k : String) (d : List (String × α)) :
    dictGet? k (dictPop k d) = none := by
  rw [dictGet?_eq_none]
  intro hm
  rcases List.mem_map.mp hm with ⟨e, he, hfst⟩
  rcases List.mem_filter.mp he with ⟨_, hcond⟩
  rw [decide_eq_true_iff] at hcond
  exact hcond hfst

theorem dictGet?_dictPop_none {α : Type} {k : String} (k2 : String)
    {d : List (String × α)} (h : dictGet? k d = none) :
    dictGet? k (dictPop k2 d) = none := by
  rw [dictGet?_eq_none] at h ⊢
  intro hm
  rcases List.mem_map.mp hm with ⟨e, he, hfst⟩
  exact h (List.mem_map.mpr ⟨e, (List.mem_filter.mp he).1, hfst⟩)

theorem popFold_none {k : String} {vs : List (String × String)}
    (items : List (String × String)) (h : dictGet? k vs = none) :
    dictGet? k (items.foldl (fun v2 kv => dictPop kv.1 v2) vs) = none := by
  induction items generalizing vs with
  | nil => simpa using h
  | cons kv rest ih => exact ih (dictGet?_dictPop_none kv.1 h)

theorem popFold_mem {k : String} (vs : List (String × String))
    {items : List (String × String)} (h : k ∈ items.map Prod.fst) :
    dictGet? k (items.foldl (fun v2 kv => dictPop kv.1 v2) vs) = none := by
  induction items generalizing vs with
  | nil => simp at h
  | cons kv rest ih =>
    simp only [List.map_cons, List.mem_cons] at h
    simp only [List.foldl_cons]
    by_cases hk : k = kv.1
    · subst hk
      exact popFold_none rest (dictGet?_dictPop_self _ vs)
    · exact ih (dictPop kv.1 vs) (h.resolve_left hk)

/-! ### Dedup lemmas (the loop of `Plugins.iter_installed`) -/

theorem dedupByName_append (l1 l2 : List Plugin) (seen : List String) :
    dedupByName (l1 ++ l2) seen
      = dedupByName l1 seen ++ dedupByName l2 (namesAfter l1 seen) := by
  induction l1 generalizing seen with
  | nil => simp [dedupByName, namesAfter]
  | cons p ps ih =>
    by_cases h : p.name ∈ seen
    · simp [dedupByName, namesAfter, h, ih]
    · simp [dedupByName, namesAfter, h, ih]

theorem mem_namesAfter (n : String) (l : List Plugin) (seen : List String) :
    n ∈ namesAfter l seen ↔ n ∈ seen ∨ n ∈ l.map Plugin.name := by
  induction l generalizing seen with
  | nil => simp [namesAfter]
  | cons p ps ih =>
    by_cases h : p.name ∈ seen
    · rw [show namesAfter (p :: ps) seen = namesAfter ps seen from by
        simp [namesAfter, h]]
      rw [ih]
      simp only [List.map_cons, List.mem_cons]
      constructor
      · rintro (hs | hp)
        · exact Or.inl hs
        · exact Or.inr (Or.inr hp)
      · rintro (hs | rfl | hp)
        · exact Or.inl hs
        · exact Or.inl h
        · exact Or.inr hp
    · rw [show namesAfter (p :: ps) seen = namesAfter ps (p.name :: seen) from by
        simp [namesAfter, h]]
      rw [ih]
      simp only [List.map_cons, List.mem_cons]
      tauto

theorem dedupByName_congr {s1 s2 : List String} (h : ∀ n, n ∈ s1 ↔ n ∈ s2)
    (l : List Plugin) : dedupByName l s1 = dedupByName l s2 := by
  induction l generalizing s1 s2 with
  | nil => rfl
  | cons p ps ih =>
    by_cases hp : p.name ∈ s1
    · have hp2 : p.name ∈ s2 := (h _).mp hp
      simp only [dedupByName, hp, if_true, hp2]
      exact ih h
    · have hp2 : p.name ∉ s2 := fun hh => hp ((h _).mpr hh)
      simp only [dedupByName, hp, if_false, hp2, List.cons.injEq, true_and]
      exact ih (fun n => by simp only [List.mem_cons]; rw [h n])

theorem dedupByName_nil_of_mem {l : List Plugin} {seen : List String}
    (h : ∀ p ∈ l, p.name ∈ seen) : dedupByName l seen = [] := by
  induction l with
  | nil => rfl
  | cons p ps ih =>
    simp only [dedupByName, h p (List.mem_cons_self _ _), if_true]
    exact ih (fun q hq => h q (List.mem_cons_of_mem _ hq))

theorem mem_dedupByName_not_seen {p : Plugin} :
    ∀ {l : List Plugin} {seen : List String}, p ∈ dedupByName l seen → p.name ∉ seen := by
  intro l
  induction l with
  | nil => intro seen h; simp [dedupByName] at h
  | cons q ps ih =>
    intro seen h
    by_cases hq : q.name ∈ seen
    · simp only [dedupByName, hq, if_true] at h
      exact ih h
    · simp only [dedupByName, hq, if_false, List.mem_cons] at h
      rcases h with rfl | h
      · exact hq
      · intro hs
        exact ih h (List.mem_cons_of_mem _ hs)

theorem nodup_dedupByName (l : List Plugin) (seen : List String) :
    ((dedupByName l seen).map Plugin.name).Nodup := by
  induction l generalizing seen with
  | nil => simp [dedupByName]
  | cons q ps ih =>
    by_cases hq : q.name ∈ seen
    · simp only [dedupByName, hq, if_true]
      exact ih seen
    · simp only [dedupByName, hq, if_false, List.map_cons, List.nodup_cons]
      refine ⟨?_, ih _⟩
      intro hmem
      rcases List.mem_map.mp hmem with ⟨p, hp, hname⟩
      exact mem_dedupByName_not_seen hp (hname ▸ List.mem_cons_self _ _)

theorem find?_dedupByName (n : String) :
    ∀ (l : List Plugin) (seen : List String), n ∉ seen →
      (dedupByName l seen).find? (fun p => p.name == n)
        = l.find? (fun p => p.name == n) := by
  intro l
  induction l with
  | nil => intro seen _; rfl
  | cons q ps ih =>
    intro seen hn
    by_cases hq : q.name ∈ seen
    · have hne : (q.name == n) = false := by
        simp only [beq_eq_false_iff_ne, ne_eq]
        intro hh
        exact hn (hh ▸ hq)
      simp only [dedupByName, hq, if_true, List.find?_cons, hne]
      exact ih seen hn
    · by_cases hqn : q.name = n
      · have ht : (q.name == n) = true := by simp [hqn]
        simp only [dedupByName, hq, if_false, List.find?_cons, ht]
      · have hne : (q.name == n) = false := by
          simp only [beq_eq_false_iff_ne, ne_eq]
          exact hqn
        simp only [dedupByName, hq, if_false, List.find?_cons, hne]
        refine ih (q.name :: seen) ?_
        simp only [List.mem_cons]
        rintro (rfl | hs)
        · exact hqn rfl
        · exact hn hs

theorem dedup_replay (A E D : List Plugin) :
    dedupByName (A ++ ((A ++ E) ++ ((A ++ E) ++ D))) []
      = dedupByName (A ++ (E ++ D)) [] := by
  have h1 : dedupByName A (namesAfter A []) = [] :=
    dedupByName_nil_of_mem (fun p hp =>
      (mem_namesAfter _ _ _).mpr (Or.inr (List.mem_map_of_mem _ hp)))
  have h2 : dedupByName (A ++ E) (namesAfter (A ++ E) (namesAfter A [])) = [] :=
    dedupByName_nil_of_mem (fun p hp =>
      (mem_namesAfter _ _ _).mpr (Or.inr (List.mem_map_of_mem _ hp)))
  have h3 : dedupByName E (namesAfter A (namesAfter A []))
      = dedupByName E (namesAfter A []) :=
    dedupByName_congr (fun n => by
      simp only [mem_namesAfter, List.mem_nil_iff]
      tauto) E
  have h4 : dedupByName D
        (namesAfter (A ++ E) (namesAfter (A ++ E) (namesAfter A [])))
      = dedupByName D (namesAfter E (namesAfter A [])) :=
    dedupByName_congr (fun n => by
      simp only [mem_namesAfter, List.map_append, List.mem_append, List.mem_nil_iff]
      tauto) D
  rw [dedupByName_append A ((A ++ E) ++ ((A ++ E) ++ D)) []]
  rw [dedupByName_append (A ++ E) ((A ++ E) ++ D) (namesAfter A [])]
  rw [dedupByName_append A E (namesAfter A [])]
  rw [dedupByName_append (A ++ E) D (namesAfter (A ++ E) (namesAfter A []))]
  rw [dedupByName_append A (E ++ D) []]
  rw [dedupByName_append E D (namesAfter A [])]
  rw [h1, h2, h3, h4]
  simp

/-! ### Registry-level results -/

theorem iter_installed_fresh_snd (env : Env) (st : RegistryState)
    (h1 : st.officialLoaded = false) (h2 : st.entrypointLoaded = false)
    (h3 : st.dictLoaded = false) :
    (Plugins.iter_installed env st).2
      = dedupByName (st.installed ++ (env.entrypointSource ++ env.dictSource)) [] := by
  unfold Plugins.iter_installed OfficialPlugin.iter_installed
    EntrypointPlugin.iter_installed DictPlugin.iter_installed
    OfficialPlugin.iter_load EntrypointPlugin.iter_load DictPlugin.iter_load
  simp only [h1, h2, h3, Bool.false_eq_true, if_false, List.append_nil]
  exact dedup_replay st.installed env.entrypointSource env.dictSource

/-- C1 (counterexample): starting from the initial registry state with one
discoverable entrypoint record `p`, a first `Plugins.iter_installed` run
discovers `p`; after `Plugins.clear()` the entrypoint strategy's loaded
flag is still `True` (not its initial `False`), and the next
`Plugins.iter_installed()` yields nothing instead of re-running discovery
of `p`. -/
theorem clear_does_not_rerun_discovery_cex :
    (Plugins.iter_installed envP RegistryState.start).2 = [⟨"p", [], [], []⟩] ∧
    (Plugins.clear (Plugins.iter_installed envP RegistryState.start).1).entrypointLoaded
      = true ∧
    (Plugins.iter_installed envP
        (Plugins.clear (Plugins.iter_installed envP RegistryState.start).1)).2 = [] := by
  decide

/-- C1 (amended): `Plugins.clear()` empties every strategy's cached
installed-list (they are one shared list), but does not reset the loaded
flags; consequently, when all strategies were already loaded, the next
`iter_installed()` does not re-run `iter_load` — it replays the now-empty
cache and yields nothing. -/
theorem clear_resets_caches_only (env : Env) (st : RegistryState) :
    (Plugins.clear st).installed = [] ∧
    (Plugins.clear st).officialLoaded = st.officialLoaded ∧
    (Plugins.clear st).entrypointLoaded = st.entrypointLoaded ∧
    (Plugins.clear st).dictLoaded = st.dictLoaded ∧
    (st.officialLoaded = true → st.entrypointLoaded = true → st.dictLoaded = true →
      Plugins.iter_installed env (Plugins.clear st) = (Plugins.clear st, [])) := by
  refine ⟨rfl, rfl, rfl, rfl, ?_⟩
  intro h1 h2 h3
  unfold Plugins.iter_installed OfficialPlugin.iter_installed
    EntrypointPlugin.iter_installed DictPlugin.iter_installed Plugins.clear
  simp [h1, h2, h3, dedupByName]

/-- Witness for `clear_resets_caches_only`: after a full discovery run on
`envP` all three flags are `true`, and `iter_installed` on the cleared
state yields nothing. -/
theorem clear_resets_caches_only_witness :
    (Plugins.iter_installed envP RegistryState.start).1.officialLoaded = true ∧
    (Plugins.iter_installed envP RegistryState.start).1.entrypointLoaded = true ∧
    (Plugins.iter_installed envP RegistryState.start).1.dictLoaded = true ∧
    Plugins.iter_installed envP
        (Plugins.clear (Plugins.iter_installed envP RegistryState.start).1)
      = (Plugins.clear (Plugins.iter_installed envP RegistryState.start).1, []) :=
  ⟨by decide, by decide, by decide,
    (clear_resets_caches_only envP
        (Plugins.iter_installed envP RegistryState.start).1).2.2.2.2
      (by decide) (by decide) (by decide)⟩

/-- C2: a record appended through `OfficialPlugin.load` appears in
`EntrypointPlugin.INSTALLED` and `DictPlugin.INSTALLED` as well — all
three strategies read the single list declared on `BasePlugin`, so the
caches are not independent. -/
theorem official_load_leaks_into_other_caches :
    EntrypointPlugin.INSTALLED (OfficialPlugin.load exX1 RegistryState.start) = [exX1] ∧
    DictPlugin.INSTALLED (OfficialPlugin.load exX1 RegistryState.start) = [exX1] ∧
    OfficialPlugin.INSTALLED (OfficialPlugin.load exX1 RegistryState.start)
      = EntrypointPlugin.INSTALLED (OfficialPlugin.load exX1 RegistryState.start) := by
  decide

/-- C3: on a fresh registry (no strategy loaded yet), `Plugins.iter_installed`
yields exactly the first-occurrence dedup of the priority concatenation
First-Party records (`OfficialPlugin.load` additions in `installed`), then
entrypoint records, then declarative-file records; the yielded names are
pairwise distinct, and for every name the record yielded is the first
record carrying that name in the priority concatenation — i.e. the one
from the higher-priority strategy. -/
theorem iter_installed_dedup_priority (env : Env) (st : RegistryState)
    (h1 : st.officialLoaded = false) (h2 : st.entrypointLoaded = false)
    (h3 : st.dictLoaded = false) :
    (Plugins.iter_installed env st).2
        = dedupByName (st.installed ++ (env.entrypointSource ++ env.dictSource)) [] ∧
    (((Plugins.iter_installed env st).2).map Plugin.name).Nodup ∧
    ∀ n, ((Plugins.iter_installed env st).2).find? (fun p => p.name == n)
        = (st.installed ++ (env.entrypointSource ++ env.dictSource)).find?
            (fun p => p.name == n) := by
  have hmain := iter_installed_fresh_snd env st h1 h2 h3
  refine ⟨hmain, ?_, ?_⟩
  · rw [hmain]
    exact nodup_dedupByName _ _
  · intro n
    rw [hmain, find?_dedupByName n _ [] (by simp)]

/-- Witness for `iter_installed_dedup_priority`: two strategies both
produce a record named `x`; the registry yields the entrypoint one. -/
theorem iter_installed_dedup_priority_witness :
    RegistryState.start.officialLoaded = false ∧
    RegistryState.start.entrypointLoaded = false ∧
    RegistryState.start.dictLoaded = false ∧
    (Plugins.iter_installed envClash RegistryState.start).2
      = dedupByName
          (RegistryState.start.installed
            ++ (envClash.entrypointSource ++ envClash.dictSource)) [] :=
  ⟨rfl, rfl, rfl,
    (iter_installed_dedup_priority envClash RegistryState.start rfl rfl rfl).1⟩

/-! ### Python string order and sort lemmas -/

theorem listLeb_total : ∀ (x y : List Char), listLeb x y = true ∨ listLeb y x = true
  | [], _ => Or.inl rfl
  | _ :: _, [] => Or.inr rfl
  | a :: as, b :: bs => by
    by_cases h1 : a.toNat < b.toNat
    · left
      simp [listLeb, h1]
    · by_cases h2 : b.toNat < a.toNat
      · right
        simp [listLeb, h2]
      · rcases listLeb_total as bs with h | h
        · left
          simp [listLeb, h1, h2, h]
        · right
          simp [listLeb, h1, h2, h]

theorem listLeb_trans :
    ∀ (x y z : List Char), listLeb x y = true → listLeb y z = true →
      listLeb x z = true
  | [], _, _, _, _ => rfl
  | _ :: _, [], _, h1, _ => by simp [listLeb] at h1
  | _ :: _, _ :: _, [], _, h2 => by simp [listLeb] at h2
  | a :: as, b :: bs, c :: cs, h1, h2 => by
    simp only [listLeb] at h1 h2 ⊢
    by_cases hab : a.toNat < b.toNat
    · by_cases hbc : b.toNat < c.toNat
      · simp [show a.toNat < c.toNat from by omega]
      · simp only [hbc, if_false] at h2
        by_cases hcb : c.toNat < b.toNat
        · simp [hcb] at h2
        · simp [show a.toNat < c.toNat from by omega]
    · simp only [hab, if_false] at h1
      by_cases hba : b.toNat < a.toNat
      · simp [hba] at h1
      · simp only [hba, if_false] at h1
        by_cases hbc : b.toNat < c.toNat
        · simp [show a.toNat < c.toNat from by omega]
        · simp only [hbc, if_false] at h2
          by_cases hcb : c.toNat < b.toNat
          · simp [hcb] at h2
          · simp only [hcb, if_false] at h2
            have hac : ¬ a.toNat < c.toNat := by omega
            have hca : ¬ c.toNat < a.toNat := by omega
            simp only [hac, hca, if_false]
            exact listLeb_trans as bs cs h1 h2

theorem pyLeb_total (a b : String) : pyLeb a b = true ∨ pyLeb b a = true :=
  listLeb_total a.data b.data

theorem pyLe_trans {a b c : String} (h1 : pyLe a b) (h2 : pyLe b c) : pyLe a c :=
  listLeb_trans a.data b.data c.data h1 h2

theorem pyLe_of_not (a b : String) (h : ¬ pyLeb a b = true) : pyLe b a :=
  (pyLeb_total a b).resolve_left h

theorem insertSorted_perm (s : String) (l : List String) :
    (insertSorted s l).Perm (s :: l) := by
  induction l with
  | nil => exact List.Perm.refl _
  | cons t ts ih =>
    by_cases h : pyLeb s t = true
    · simp [insertSorted, h]
    · simp only [insertSorted, h, if_false]
      exact List.Perm.trans (List.Perm.cons t ih) (List.Perm.swap s t ts)

theorem sortStrings_perm (l : List String) : (sortStrings l).Perm l := by
  induction l with
  | nil => exact List.Perm.refl _
  | cons s ss ih =>
    exact List.Perm.trans (insertSorted_perm s (sortStrings ss)) (List.Perm.cons s ih)

theorem pairwise_insertSorted {s : String} {l : List String}
    (h : l.Pairwise pyLe) : (insertSorted s l).Pairwise pyLe := by
  induction l with
  | nil => simp [insertSorted, pyLe]
  | cons t ts ih =>
    rcases List.pairwise_cons.mp h with ⟨ht, hts⟩
    by_cases hst : pyLeb s t = true
    · simp only [insertSorted, hst, if_true]
      refine List.pairwise_cons.mpr ⟨?_, h⟩
      intro x hx
      rcases List.mem_cons.mp hx with rfl | hx2
      · exact hst
      · exact pyLe_trans hst (ht x hx2)
    · simp only [insertSorted, hst, if_false]
      refine List.pairwise_cons.mpr ⟨?_, ih hts⟩
      intro x hx
      have hmem := (insertSorted_perm s ts).mem_iff.mp hx
      rcases List.mem_cons.mp hmem with rfl | hx2
      · exact pyLe_of_not _ _ hst
      · exact ht x hx2

theorem pairwise_sortStrings (l : List String) : (sortStrings l).Pairwise pyLe := by
  induction l with
  | nil => simp [sortStrings]
  | cons s ss ih => exact pairwise_insertSorted ih

theorem map_keys_get {α : Type} (dflt : α) (pp : List (String × α))
    (h : (pp.map Prod.fst).Nodup) :
    (pp.map Prod.fst).map (fun n => (n, (dictGet? n pp).getD dflt)) = pp := by
  induction pp with
  | nil => rfl
  | cons kv rest ih =>
    obtain ⟨k, v⟩ := kv
    simp only [List.map_cons] at h
    rcases List.nodup_cons.mp h with ⟨hk, hrest⟩
    have htail :
        (rest.map Prod.fst).map (fun n => (n, (dictGet? n ((k, v) :: rest)).getD dflt))
          = (rest.map Prod.fst).map (fun n => (n, (dictGet? n rest).getD dflt)) := by
      apply List.map_congr_left
      intro n hn
      have hne : ¬ (k = n) := fun hh => hk (hh ▸ hn)
      simp [dictGet?, hne]
    simp only [List.map_cons]
    rw [htail, ih hrest]
    simp [dictGet?]

/-! ### Aggregator build lemmas -/

theorem nodup_inner_nestedAdd {α : Type} {outer : List (String × List (String × α))}
    (h : ∀ e ∈ outer, (e.2.map Prod.fst).Nodup) (k1 k2 : String) (v : α) :
    ∀ e ∈ nestedAdd outer k1 k2 v, (e.2.map Prod.fst).Nodup := by
  intro e he
  rcases mem_dictSet he with rfl | he2
  · apply nodup_keys_dictSet
    cases hg : dictGet? k1 outer with
    | none => simp
    | some inner =>
      simp only [Option.getD_some]
      exact h (k1, inner) (dictGet?_mem hg)
  · exact h e he2

theorem nodup_inner_addContrib {α : Type} (items : List (String × α)) (nm : String) :
    ∀ (outer : List (String × List (String × α))),
      (∀ e ∈ outer, (e.2.map Prod.fst).Nodup) →
      ∀ e ∈ addContrib items nm outer, (e.2.map Prod.fst).Nodup := by
  induction items with
  | nil => intro outer h e he; exact h e he
  | cons kv rest ih =>
    intro outer h
    exact ih (nestedAdd outer kv.1 nm kv.2) (nodup_inner_nestedAdd h kv.1 nm kv.2)

theorem nodup_inner_buildNested {α : Type} (getItems : Plugin → List (String × α))
    (ps : List Plugin) :
    ∀ e ∈ buildNested getItems ps, (e.2.map Prod.fst).Nodup := by
  suffices hs : ∀ (acc : List (String × List (String × α))),
      (∀ e ∈ acc, (e.2.map Prod.fst).Nodup) →
      ∀ e ∈ ps.foldl (fun d p => addContrib (getItems p) p.name d) acc,
        (e.2.map Prod.fst).Nodup by
    exact hs [] (by simp)
  induction ps with
  | nil => intro acc h e he; exact h e he
  | cons p ps2 ih =>
    intro acc h
    exact ih (addContrib (getItems p) p.name acc)
      (nodup_inner_addContrib (getItems p) p.name acc h)

theorem addContrib_get {α : Type} (items : List (String × α)) (nm : String) :
    ∀ (outer : List (String × List (String × α))) (phase : String),
      (items.map Prod.fst).Nodup →
      (∀ ph ∈ items.map Prod.fst,
        nm ∉ (((dictGet? ph outer).getD []).map Prod.fst)) →
      (dictGet? phase (addContrib items nm outer)).getD []
        = ((dictGet? phase outer).getD [])
          ++ ((dictGet? phase items).map (fun v => (nm, v))).toList := by
  induction items with
  | nil =>
    intro outer phase _ _
    simp [addContrib, dictGet?]
  | cons kv rest ih =>
    intro outer phase hnodup hfresh
    obtain ⟨ph0, v0⟩ := kv
    simp only [List.map_cons, List.nodup_cons] at hnodup
    have hfresh0 : nm ∉ (((dictGet? ph0 outer).getD []).map Prod.fst) :=
      hfresh ph0 (by simp)
    have hset : (dictGet? ph0 (nestedAdd outer ph0 nm v0)).getD []
        = ((dictGet? ph0 outer).getD []) ++ [(nm, v0)] := by
      unfold nestedAdd
      rw [dictGet?_dictSet_self]
      simp [dictSet_of_not_mem v0 hfresh0]
    have hother : ∀ ph, ph ≠ ph0 →
        dictGet? ph (nestedAdd outer ph0 nm v0) = dictGet? ph outer := by
      intro ph hne
      unfold nestedAdd
      exact dictGet?_dictSet_ne _ _ hne
    have hfresh2 : ∀ ph ∈ rest.map Prod.fst,
        nm ∉ (((dictGet? ph (nestedAdd outer ph0 nm v0)).getD []).map Prod.fst) := by
      intro ph hph
      have hne : ph ≠ ph0 := fun hh => hnodup.1 (hh ▸ hph)
      rw [hother ph hne]
      exact hfresh ph (List.mem_cons_of_mem _ hph)
    have hstep : addContrib ((ph0, v0) :: rest) nm outer
        = addContrib rest nm (nestedAdd outer ph0 nm v0) := rfl
    rw [hstep, ih (nestedAdd outer ph0 nm v0) phase hnodup.2 hfresh2]
    by_cases hph : phase = ph0
    · subst hph
      rw [hset]
      have hnone : dictGet? phase rest = none := (dictGet?_eq_none _ _).mpr hnodup.1
      simp [dictGet?, hnone]
    · rw [hother phase hph]
      simp [dictGet?, Ne.symm hph]

theorem buildNested_get {α : Type} (getItems : Plugin → List (String × α)) :
    ∀ (ps : List Plugin) (acc : List (String × List (String × α))) (phase : String),
      (ps.map Plugin.name).Nodup →
      (∀ p ∈ ps, ((getItems p).map Prod.fst).Nodup) →
      (∀ p ∈ ps, ∀ ph, p.name ∉ (((dictGet? ph acc).getD []).map Prod.fst)) →
      (dictGet? phase (ps.foldl (fun d p => addContrib (getItems p) p.name d) acc)).getD []
        = ((dictGet? phase acc).getD [])
          ++ ps.filterMap
              (fun p => (dictGet? phase (getItems p)).map (fun v => (p.name, v))) := by
  intro ps
  induction ps with
  | nil =>
    intro acc phase _ _ _
    simp
  | cons p ps2 ih =>
    intro acc phase hnames hitems hfresh
    simp only [List.map_cons, List.nodup_cons] at hnames
    have hacc1 : ∀ ph, (dictGet? ph (addContrib (getItems p) p.name acc)).getD []
        = ((dictGet? ph acc).getD [])
          ++ ((dictGet? ph (getItems p)).map (fun v => (p.name, v))).toList :=
      fun ph => addContrib_get (getItems p) p.name acc ph (hitems p (by simp))
        (fun ph2 _ => hfresh p (by simp) ph2)
    have hfresh2 : ∀ q ∈ ps2, ∀ ph,
        q.name ∉ (((dictGet? ph (addContrib (getItems p) p.name acc)).getD []).map Prod.fst) := by
      intro q hq ph
      rw [hacc1 ph]
      simp only [List.map_append, List.mem_append]
      rintro (h | h)
      · exact hfresh q (List.mem_cons_of_mem _ hq) ph h
      · cases hg : dictGet? ph (getItems p) with
        | none =>
          rw [hg] at h
          simp at h
        | some v =>
          rw [hg] at h
          simp at h
          exact hnames.1 (h ▸ List.mem_map_of_mem Plugin.name hq)
    simp only [List.foldl_cons]
    rw [ih (addContrib (getItems p) p.name acc) phase hnames.2
      (fun q hq => hitems q (List.mem_cons_of_mem _ hq)) hfresh2]
    rw [hacc1 phase, List.filterMap_cons]
    cases hg : dictGet? phase (getItems p) with
    | none => simp [hg]
    | some v => simp [hg]

theorem buildNested_get_spec {α : Type} (getItems : Plugin → List (String × α))
    (ps : List Plugin) (phase : String)
    (hnames : (ps.map Plugin.name).Nodup)
    (hitems : ∀ p ∈ ps, ((getItems p).map Prod.fst).Nodup) :
    (dictGet? phase (buildNested getItems ps)).getD []
      = ps.filterMap (fun p => (dictGet? phase (getItems p)).map (fun v => (p.name, v))) := by
  have h := buildNested_get getItems ps [] phase hnames hitems
    (fun p _ ph => by simp [dictGet?])
  simpa [buildNested, dictGet?] using h

/-! ### Aggregator-level results -/

/-- C4: for every environment, registry state, configuration and patch
slot, `iter_patches(slot)` yields the `(plugin_name, content)` pairs
recorded for that slot as a permutation of the slot's inner dict, with the
plugin names in sorted (code-point / alphabetical) order — independent of
the discovery or enable order that built the aggregator. -/
theorem iter_patches_sorted_perm (env : Env) (st : RegistryState) (cfg : Config)
    (slot : String) :
    ((((Plugins.build env st cfg).iter_patches slot).map Prod.fst).Pairwise pyLe) ∧
    ((Plugins.build env st cfg).iter_patches slot).Perm
      ((dictGet? slot (Plugins.build env st cfg).patches).getD []) := by
  have hnodup :
      ((((dictGet? slot (Plugins.build env st cfg).patches).getD []).map Prod.fst)).Nodup := by
    cases hg : dictGet? slot (Plugins.build env st cfg).patches with
    | none => simp
    | some inner =>
      simp only [Option.getD_some]
      exact nodup_inner_buildNested Plugin.patches (iterEnabled env st cfg)
        (slot, inner) (dictGet?_mem hg)
  have hmap := map_keys_get "" ((dictGet? slot (Plugins.build env st cfg).patches).getD [])
    hnodup
  constructor
  · simp only [PluginsState.iter_patches]
    rw [List.map_map]
    have hid : (Prod.fst ∘ fun n =>
        (n, (dictGet? n ((dictGet? slot (Plugins.build env st cfg).patches).getD [])).getD ""))
        = id := rfl
    rw [hid, List.map_id]
    exact pairwise_sortStrings _
  · simp only [PluginsState.iter_patches]
    refine List.Perm.trans (List.Perm.map _ (sortStrings_perm _)) ?_
    rw [hmap]

/-- C9: for every environment, registry state, configuration and hook
phase, `iter_hooks(phase)` yields exactly one `(plugin_name, services)`
pair per enabled plugin that declares the phase, in the aggregator's
insertion order — the registry-iteration order of the enabled plugins —
with no sorting applied (hypothesis: each installed record's `hooks` dict
has distinct keys, as every Python dict does). -/
theorem iter_hooks_insertion_order (env : Env) (st : RegistryState) (cfg : Config)
    (phase : String)
    (hH : ∀ p ∈ (Plugins.iter_installed env st).2, ((p.hooks.map Prod.fst).Nodup)) :
    (Plugins.build env st cfg).iter_hooks phase
      = (iterEnabled env st cfg).filterMap
          (fun p => (dictGet? phase p.hooks).map (fun s => (p.name, s))) := by
  have h1 : (((Plugins.iter_installed env st).2).map Plugin.name).Nodup :=
    nodup_dedupByName _ _
  have h2 : ((iterEnabled env st cfg).map Plugin.name).Sublist
      (((Plugins.iter_installed env st).2).map Plugin.name) :=
    List.Sublist.map _ (List.filter_sublist _)
  have hnames : ((iterEnabled env st cfg).map Plugin.name).Nodup := h1.sublist h2
  have hitems : ∀ p ∈ iterEnabled env st cfg, ((p.hooks.map Prod.fst).Nodup) :=
    fun p hp => hH p (List.mem_of_mem_filter hp)
  show (dictGet? phase (buildNested Plugin.hooks (iterEnabled env st cfg))).getD [] = _
  exact buildNested_get_spec Plugin.hooks _ phase hnames hitems

/-- Witness for `iter_hooks_insertion_order`: plugins discovered in the
order `b`, `a` and both enabled; `iter_hooks "init"` yields `b` before `a`
(insertion order), while `iter_patches "body"` on the same aggregator is
alphabetical. -/
theorem iter_hooks_insertion_order_witness :
    (∀ p ∈ (Plugins.iter_installed envBA RegistryState.start).2,
      ((p.hooks.map Prod.fst).Nodup)) ∧
    (Plugins.build envBA RegistryState.start ⟨some ["a", "b"], []⟩).iter_hooks "init"
      = (iterEnabled envBA RegistryState.start ⟨some ["a", "b"], []⟩).filterMap
          (fun p => (dictGet? "init" p.hooks).map (fun s => (p.name, s))) :=
  ⟨by decide,
    iter_hooks_insertion_order envBA RegistryState.start ⟨some ["a", "b"], []⟩ "init"
      (by decide)⟩

/-! ### Enable / disable results -/

theorem fold_preserves_none {k : String} (name : String) :
    ∀ (ps : List Plugin) (vs : List (String × String)),
      dictGet? k vs = none →
      dictGet? k (ps.foldl
        (fun vs2 q =>
          if q.name = name then q.config_set.foldl (fun v2 kv => dictPop kv.1 v2) vs2
          else vs2) vs) = none := by
  intro ps
  induction ps with
  | nil => intro vs h; simpa using h
  | cons q rest ih =>
    intro vs h
    simp only [List.foldl_cons]
    by_cases hq : q.name = name
    · rw [if_pos hq]
      exact ih _ (popFold_none _ h)
    · rw [if_neg hq]
      exact ih _ h

theorem disable_pops (name : String) (p : Plugin) :
    ∀ (ps : List Plugin) (vs : List (String × String)), p ∈ ps → p.name = name →
      ∀ k ∈ p.config_set.map Prod.fst,
        dictGet? k (ps.foldl
          (fun vs2 q =>
            if q.name = name then q.config_set.foldl (fun v2 kv => dictPop kv.1 v2) vs2
            else vs2) vs) = none := by
  intro ps
  induction ps with
  | nil =>
    intro vs hmem
    simp at hmem
  | cons q rest ih =>
    intro vs hmem hname k hk
    simp only [List.foldl_cons]
    rcases List.mem_cons.mp hmem with heq | hmem2
    · subst heq
      rw [if_pos hname]
      exact fold_preserves_none name rest _ (popFold_mem vs hk)
    · by_cases hq : q.name = name
      · rw [if_pos hq]
        exact ih _ hmem2 hname k hk
      · rw [if_neg hq]
        exact ih _ hmem2 hname k hk

theorem fold_no_match (name : String) :
    ∀ (ps : List Plugin) (vs : List (String × String)),
      (∀ p ∈ ps, p.name ≠ name) →
      ps.foldl
        (fun vs2 q =>
          if q.name = name then q.config_set.foldl (fun v2 kv => dictPop kv.1 v2) vs2
          else vs2) vs = vs := by
  intro ps
  induction ps with
  | nil => intro vs _; rfl
  | cons q rest ih =>
    intro vs h
    simp only [List.foldl_cons]
    rw [if_neg (h q (List.mem_cons_self _ _))]
    exact ih vs (fun p hp => h p (List.mem_cons_of_mem _ hp))

/-- C5: when an installed plugin `p` is currently enabled and carries the
target name, `disable` completes without error, removes every occurrence
of the name from the `PLUGINS` entry, and every key of `p`'s `config.set`
group is absent from the configuration variables afterwards (keys already
absent are simply skipped by `pop(key, None)`). -/
theorem disable_removes_set_keys (env : Env) (st : RegistryState) (cfg : Config)
    (name : String) (p : Plugin)
    (hp : p ∈ iterEnabled env st cfg) (hn : p.name = name) :
    (disable env st cfg name).2 = none ∧
    (disable env st cfg name).1.plugins
      = some ((cfg.plugins.getD []).filter (fun s => decide (s ≠ name))) ∧
    (∀ l2, (disable env st cfg name).1.plugins = some l2 → name ∉ l2) ∧
    (∀ k ∈ p.config_set.map Prod.fst,
      dictGet? k (disable env st cfg name).1.vars = none) := by
  have hen : is_enabled cfg p.name = true := (List.mem_filter.mp hp).2
  obtain ⟨l, hl⟩ : ∃ l, cfg.plugins = some l := by
    cases hcp : cfg.plugins with
    | none =>
      rw [is_enabled, hcp] at hen
      simp at hen
    | some l => exact ⟨l, rfl⟩
  refine ⟨?_, ?_, ?_, ?_⟩
  · simp [disable, hl]
  · simp [disable, hl]
  · intro l2 hl2
    simp [disable, hl] at hl2
    rw [← hl2]
    intro hmem
    rcases List.mem_filter.mp hmem with ⟨_, hcond⟩
    simp at hcond
  · intro k hk
    simp only [disable, hl]
    exact disable_pops name p (iterEnabled env st cfg) cfg.vars hp hn k hk

/-- Witness for `disable_removes_set_keys`: the spec's `forum` scenario —
after disabling the enabled `forum` plugin, `FORUM_SECRET` is gone and the
call reports no error. -/
theorem disable_removes_set_keys_witness :
    (exForum ∈ iterEnabled envForum RegistryState.start
      ⟨some ["forum"], [("FORUM_SECRET", "abc")]⟩) ∧
    exForum.name = "forum" ∧
    (disable envForum RegistryState.start
      ⟨some ["forum"], [("FORUM_SECRET", "abc")]⟩ "forum").2 = none ∧
    dictGet? "FORUM_SECRET"
      (disable envForum RegistryState.start
        ⟨some ["forum"], [("FORUM_SECRET", "abc")]⟩ "forum").1.vars = none :=
  ⟨by decide, rfl,
    (disable_removes_set_keys envForum RegistryState.start
      ⟨some ["forum"], [("FORUM_SECRET", "abc")]⟩ "forum" exForum (by decide) rfl).1,
    (disable_removes_set_keys envForum RegistryState.start
      ⟨some ["forum"], [("FORUM_SECRET", "abc")]⟩ "forum" exForum (by decide) rfl).2.2.2
      "FORUM_SECRET" (by decide)⟩

/-- C6 (counterexample): when the configuration mapping has no `PLUGINS`
entry at all, `disable` does not return normally: the unconditional
`config[CONFIG_KEY]` indexing raises a `KeyError`. -/
theorem disable_missing_plugins_key_raises :
    disable envForum RegistryState.start ⟨none, []⟩ "forum"
      = (⟨none, []⟩, some (PluginError.keyError "PLUGINS")) := by
  decide

/-- C6 (amended): when the `PLUGINS` entry exists but does not contain the
name (the plugin was never enabled), `disable` returns normally and leaves
the configuration mapping unchanged: no variable key is removed and the
enabled-list is untouched. -/
theorem disable_not_enabled_noop (env : Env) (st : RegistryState) (cfg : Config)
    (name : String) (l : List String) (hl : cfg.plugins = some l) (hn : name ∉ l) :
    disable env st cfg name = (cfg, none) := by
  obtain ⟨pl, vars⟩ := cfg
  simp only at hl
  subst hl
  have hall : ∀ p ∈ iterEnabled env st ⟨some l, vars⟩, p.name ≠ name := by
    intro p hp heq
    have hen : is_enabled ⟨some l, vars⟩ p.name = true := (List.mem_filter.mp hp).2
    simp [is_enabled] at hen
    exact hn (heq ▸ hen)
  have hfilter : l.filter (fun s => decide (s ≠ name)) = l := by
    apply List.filter_eq_self.mpr
    intro a ha
    rw [decide_eq_true_iff]
    intro hh
    exact hn (hh ▸ ha)
  simp only [disable]
  rw [fold_no_match name (iterEnabled env st ⟨some l, vars⟩) vars hall, hfilter]

/-- Witness for `disable_not_enabled_noop`: disabling the never-enabled
name `zz` with an existing enabled-list returns the configuration
untouched and raises nothing. -/
theorem disable_not_enabled_noop_witness :
    (⟨some ["a"], [("K", "v")]⟩ : Config).plugins = some ["a"] ∧
    "zz" ∉ (["a"] : List String) ∧
    disable envForum RegistryState.start ⟨some ["a"], [("K", "v")]⟩ "zz"
      = (⟨some ["a"], [("K", "v")]⟩, none) :=
  ⟨rfl, by decide,
    disable_not_enabled_noop envForum RegistryState.start
      ⟨some ["a"], [("K", "v")]⟩ "zz" ["a"] rfl (by decide)⟩

/-- C7: `enable` on a name absent from the registry raises the
`plugin is not installed` error and returns the configuration mapping
exactly as it was — the check precedes every mutation in the source. -/
theorem enable_not_installed_error (env : Env) (st : RegistryState) (cfg : Config)
    (name : String) (h : is_installed env st name = false) :
    enable env st cfg name = (cfg, some (PluginError.notInstalled name)) := by
  simp only [enable]
  rw [if_pos h]

/-- Witness for `enable_not_installed_error`: `enable(config, "unknown")`
with only `forum` installed. -/
theorem enable_not_installed_error_witness :
    is_installed envForum RegistryState.start "unknown" = false ∧
    enable envForum RegistryState.start ⟨none, []⟩ "unknown"
      = (⟨none, []⟩, some (PluginError.notInstalled "unknown")) :=
  ⟨by decide,
    enable_not_installed_error envForum RegistryState.start ⟨none, []⟩ "unknown"
      (by decide)⟩

/-- C8 (counterexample): an `enable` call on an installed plugin that is
already enabled returns successfully (no error) but leaves a pre-existing
unsorted enabled-list `["b", "a"]` unsorted — so it is not the case that
the enabled-list is sorted after every successful `enable` call. -/
theorem enable_noop_unsorted_cex :
    (enable envBA RegistryState.start ⟨some ["b", "a"], []⟩ "b").2 = none ∧
    (enable envBA RegistryState.start ⟨some ["b", "a"], []⟩ "b").1.plugins
      = some ["b", "a"] ∧
    ¬ ((["b", "a"] : List String).Pairwise pyLe) := by
  decide

/-- C8 (amended): every `enable` call that actually appends — installed
plugin, not previously enabled — leaves the `PLUGINS` entry existing and
equal to the previous list plus the name, re-sorted; the resulting list is
sorted and is a permutation of the previous list plus the name.  (An
`enable` on an already-enabled plugin returns the list untouched.) -/
theorem enable_append_sorted (env : Env) (st : RegistryState) (cfg : Config)
    (name : String)
    (h1 : is_installed env st name = true) (h2 : is_enabled cfg name = false) :
    enable env st cfg name
      = ({ cfg with plugins := some (sortStrings (cfg.plugins.getD [] ++ [name])) },
         none) ∧
    (sortStrings (cfg.plugins.getD [] ++ [name])).Pairwise pyLe ∧
    (sortStrings (cfg.plugins.getD [] ++ [name])).Perm (cfg.plugins.getD [] ++ [name]) := by
  refine ⟨?_, pairwise_sortStrings _, sortStrings_perm _⟩
  simp only [enable]
  rw [if_neg (by simp [h1]), if_neg (by simp [h2])]

/-- Witness for `enable_append_sorted`: enabling `forum` on a
configuration without a `PLUGINS` entry creates the entry `["forum"]`. -/
theorem enable_append_sorted_witness :
    is_installed envForum RegistryState.start "forum" = true ∧
    is_enabled ⟨none, []⟩ "forum" = false ∧
    enable envForum RegistryState.start ⟨none, []⟩ "forum"
      = (⟨some (sortStrings (([] : List String) ++ ["forum"])), []⟩, none) :=
  ⟨by decide, rfl,
    (enable_append_sorted envForum RegistryState.start ⟨none, []⟩ "forum"
      (by decide) rfl).1⟩

/-- C10: `enable` on an installed plugin whose name is already in the
enabled-list returns immediately with the configuration mapping entirely
unchanged — in particular a pre-existing unsorted enabled-list is not
re-sorted. -/
theorem enable_already_enabled_noop (env : Env) (st : RegistryState) (cfg : Config)
    (name : String)
    (h1 : is_installed env st name = true) (h2 : is_enabled cfg name = true) :
    enable env st cfg name = (cfg, none) := by
  simp only [enable]
  rw [if_neg (by simp [h1]), if_pos h2]

/-- Witness for `enable_already_enabled_noop`: `b` installed and already
enabled in the unsorted list `["b", "a"]`; the call returns the
configuration unchanged. -/
theorem enable_already_enabled_noop_witness :
    is_installed envBA RegistryState.start "b" = true ∧
    is_enabled ⟨some ["b", "a"], []⟩ "b" = true ∧
    enable envBA RegistryState.start ⟨some ["b", "a"], []⟩ "b"
      = (⟨some ["b", "a"], []⟩, none) :=
  ⟨by decide, by decide,
    enable_already_enabled_noop envBA RegistryState.start ⟨some ["b", "a"], []⟩ "b"
      (by decide) (by decide)⟩
